import Mathlib

/-!
Shallow embedding of the Day One → Markdown converter (`src/main.js`) and
verification of its specification.

The converter's core pipeline is pure: locate `Journal.json` inside a zip
archive, parse entries, resolve a timestamp and a body per entry, sort
stably by timestamp, and render one markdown document.  Host functions
(`Date.parse`, `JSON.parse`) are parameters of the embedded pipeline;
concrete executable models of them (on the subsets exercised here) are
provided for witnesses.
-/

namespace DayOne

/-- Whitespace test used to model `String.prototype.trim` (core subset:
space, tab, CR, LF). -/
def jsWS (c : Char) : Bool := c.isWhitespace

/-- Character-list version of JS `trim`: drop whitespace from both ends. -/
def trimChars (l : List Char) : List Char :=
  ((l.dropWhile jsWS).reverse.dropWhile jsWS).reverse

/-- Model of `s.trim()` as used throughout `main.js`. -/
def jsTrim (s : String) : String := ⟨trimChars s.data⟩

/-- ASCII model of `Char` lowering as performed by `toLowerCase`. -/
def lowerChar (c : Char) : Char :=
  if 'A' ≤ c ∧ c ≤ 'Z' then Char.ofNat (c.toNat + 32) else c

/-- Model of `s.toLowerCase()` (main.js:100, main.js:151). -/
def lowerStr (s : String) : String := ⟨s.data.map lowerChar⟩

/-- Model of `s.endsWith(suffix)`. -/
def jsEndsWith (s suffix : String) : Bool := suffix.data.isSuffixOf s.data

/-- The backslash character. -/
def bsChar : Char := '\\'

/-- Matches the character class `[.-]` of the cleanup regex. -/
def isDotDash (c : Char) : Bool := c == '.' || c == '-'

/-- Character-level model of `text.replace(/\\([.-])/g, "$1")`
(`cleanupText`, main.js:228-230): a left-to-right scan that removes a
backslash immediately preceding a period or hyphen, resuming the scan
after the kept period/hyphen, exactly as a global regex replace does. -/
def cleanupChars : List Char → List Char
  | a :: b :: rest =>
    if a == bsChar && isDotDash b then b :: cleanupChars rest
    else a :: cleanupChars (b :: rest)
  | l => l

/-- `cleanupText` (main.js:228-230). -/
def cleanupText (s : String) : String := ⟨cleanupChars s.data⟩

/-- One journal entry, restricted to the four fields `main.js` reads.
The `typeof x === "string"` guards in the source make non-string field
values behave as absent, so fields are modeled as optional strings. -/
structure Entry where
  creationDate : Option String
  modifiedDate : Option String
  text : Option String
  richText : Option String
deriving DecidableEq

/-- JS `a || b` on optional string values: `a` wins unless it is absent
or the empty string (both falsy). -/
def jsOrStr (a b : Option String) : Option String :=
  match a with
  | some s => if s = "" then b else some s
  | none => b

/-- The string handed to `Date.parse` in `parseDate` (main.js:183):
`entry?.creationDate || entry?.modifiedDate || ""`. -/
def rawDate (e : Entry) : String := (jsOrStr e.creationDate e.modifiedDate).getD ""

/-- `parseDate` (main.js:182-186), parameterized by the host date parser
`dp` (`Date.parse`; `none` models `NaN`). -/
def parseDate (dp : String → Option Int) (e : Entry) : Int :=
  match dp (rawDate e) with
  | some v => v
  | none => 0

/-- `pad` (main.js:248-250): `String(value).padStart(2, "0")`. -/
def pad2 (n : Int) : String :=
  let s := toString n
  if s.length < 2 then "0" ++ s else s

/-- Proleptic-Gregorian conversion from days since the epoch to
`(year, month, day)` in UTC, the arithmetic behind `getUTCFullYear`,
`getUTCMonth`, `getUTCDate`. -/
def civilFromDays (z : Int) : Int × Int × Int :=
  let z2 := z + 719468
  let era := Int.fdiv z2 146097
  let doe := z2 - era * 146097
  let yoe := Int.fdiv (doe - Int.fdiv doe 1460 + Int.fdiv doe 36524 - Int.fdiv doe 146096) 365
  let y := yoe + era * 400
  let doy := doe - (365 * yoe + Int.fdiv yoe 4 - Int.fdiv yoe 100)
  let mp := Int.fdiv (5 * doy + 2) 153
  let d := doy - Int.fdiv (153 * mp + 2) 5 + 1
  let m := if mp < 10 then mp + 3 else mp - 9
  (if m ≤ 2 then y + 1 else y, m, d)

/-- UTC rendering of an epoch-milliseconds instant in the
`yyyy-mm-dd hh-mm-ss` shape built by `formatTimestamp` (main.js:194-200). -/
def fmtEpochMs (ms : Int) : String :=
  let days := Int.fdiv ms 86400000
  let msInDay := ms - days * 86400000
  let ymd := civilFromDays days
  let hour := Int.fdiv msInDay 3600000
  let minute := Int.fdiv (Int.emod msInDay 3600000) 60000
  let second := Int.fdiv (Int.emod msInDay 60000) 1000
  toString ymd.1 ++ "-" ++ pad2 ymd.2.1 ++ "-" ++ pad2 ymd.2.2 ++ " " ++
    pad2 hour ++ "-" ++ pad2 minute ++ "-" ++ pad2 second

/-- `formatTimestamp` (main.js:188-201), parameterized by the host date
parser: a falsy `value` (absent or empty) yields `new Date(0)`; a present
string that fails to parse yields the literal `"1970-01-01 00-00-00"`;
otherwise the parsed instant is formatted in UTC. -/
def formatTimestamp (dp : String → Option Int) (value : Option String) : String :=
  match value with
  | none => fmtEpochMs 0
  | some s =>
    if s = "" then fmtEpochMs 0
    else
      match dp s with
      | none => "1970-01-01 00-00-00"
      | some ms => fmtEpochMs ms

/-- Numeric value of an ASCII digit character. -/
def digitVal (c : Char) : Nat := c.toNat - 48

/-- Gregorian leap-year test. -/
def isLeap (y : Int) : Bool := (Int.emod y 4 == 0 && Int.emod y 100 != 0) || Int.emod y 400 == 0

/-- Days in a month of the Gregorian calendar. -/
def daysInMonth (y m : Int) : Int :=
  if m == 2 then (if isLeap y then 29 else 28)
  else if m == 4 || m == 6 || m == 9 || m == 11 then 30
  else 31

/-- Inverse of `civilFromDays`: days since the epoch of a civil date. -/
def daysFromCivil (y m d : Int) : Int :=
  let yy := if m ≤ 2 then y - 1 else y
  let era := Int.fdiv yy 400
  let yoe := yy - era * 400
  let mp := if m > 2 then m - 3 else m + 9
  let doy := Int.fdiv (153 * mp + 2) 5 + d - 1
  let doe := yoe * 365 + Int.fdiv yoe 4 - Int.fdiv yoe 100 + doy
  era * 146097 + doe - 719468

/-- Modelled from the host environment: `Date.parse` restricted to strict
`YYYY-MM-DDThh:mm:ssZ` UTC ISO-8601 strings (the Day One export format);
every other string is rejected (`none`, i.e. `NaN`), matching `Date.parse`
on the strings used in this development. -/
def isoDateParse (s : String) : Option Int :=
  match s.data with
  | [y1, y2, y3, y4, c1, m1, m2, c2, d1, d2, ct, h1, h2, k1, n1, n2, k2, s1, s2, cz] =>
    if (y1.isDigit && y2.isDigit && y3.isDigit && y4.isDigit &&
        m1.isDigit && m2.isDigit && d1.isDigit && d2.isDigit &&
        h1.isDigit && h2.isDigit && n1.isDigit && n2.isDigit &&
        s1.isDigit && s2.isDigit &&
        (c1 == '-') && (c2 == '-') && (ct == 'T') && (k1 == ':') && (k2 == ':') && (cz == 'Z')) then
      let y : Int := Int.ofNat (digitVal y1 * 1000 + digitVal y2 * 100 + digitVal y3 * 10 + digitVal y4)
      let m : Int := Int.ofNat (digitVal m1 * 10 + digitVal m2)
      let d : Int := Int.ofNat (digitVal d1 * 10 + digitVal d2)
      let h : Int := Int.ofNat (digitVal h1 * 10 + digitVal h2)
      let mi : Int := Int.ofNat (digitVal n1 * 10 + digitVal n2)
      let sec : Int := Int.ofNat (digitVal s1 * 10 + digitVal s2)
      if 1 ≤ m ∧ m ≤ 12 ∧ 1 ≤ d ∧ d ≤ daysInMonth y m ∧ h ≤ 23 ∧ mi ≤ 59 ∧ sec ≤ 59 then
        some ((daysFromCivil y m d * 86400 + h * 3600 + mi * 60 + sec) * 1000)
      else none
    else none
  | _ => none

/-- JSON values as produced by `JSON.parse`.  Numbers are modeled as
integers (the pipeline never reads a numeric field). -/
inductive Json where
  | null
  | bool (b : Bool)
  | num (n : Int)
  | str (s : String)
  | arr (elts : List Json)
  | obj (fields : List (String × Json))

/-- JS property access `j?.k`: a field lookup that yields `undefined`
(`none`) on non-objects and missing keys. -/
def Json.getField : Json → String → Option Json
  | .obj fields, k => fields.lookup k
  | _, _ => none

/-- `typeof part?.text === "string" ? part.text : ""` (main.js:215). -/
def partText (part : Json) : String :=
  match part.getField "text" with
  | some (.str s) => s
  | _ => ""

/-- The `chunks` value computed from a parsed `richText` (main.js:213-218):
if `parsed?.contents` is an array, concatenate each part's `text` and trim;
otherwise the empty string. -/
def richChunks (parsed : Json) : String :=
  match parsed.getField "contents" with
  | some (.arr parts) => jsTrim (String.join (parts.map partText))
  | _ => ""

/-- `getEntryText` (main.js:203-226), parameterized by the host JSON
parser `jp` (`JSON.parse`; `none` models a thrown `SyntaxError`). -/
def getEntryText (jp : String → Option Json) (e : Entry) : String :=
  let text := e.text.getD ""
  if jsTrim text ≠ "" then cleanupText (jsTrim text)
  else
    match e.richText with
    | some rt =>
      if jsTrim rt = "" then "[No content]"
      else
        match jp rt with
        | some parsed =>
          let chunks := richChunks parsed
          if chunks ≠ "" then cleanupText chunks else "[No content]"
        | none => "[No content]"
    | none => "[No content]"

/-- Drop leading JSON whitespace. -/
def skipWs (l : List Char) : List Char := l.dropWhile jsWS

/-- Parse the remainder of a JSON string literal (after the opening
quote), handling the basic escapes; returns the decoded characters and
the input after the closing quote. -/
def parseStrChars : Nat → List Char → Option (List Char × List Char)
  | 0, _ => none
  | _, [] => none
  | f + 1, c :: rest =>
    if c == '"' then some ([], rest)
    else if c == bsChar then
      match rest with
      | [] => none
      | e :: rest2 =>
        let ec : Option Char :=
          if e == '"' then some '"'
          else if e == bsChar then some bsChar
          else if e == '/' then some '/'
          else if e == 'n' then some '\n'
          else if e == 't' then some '\t'
          else if e == 'r' then some '\r'
          else none
        match ec with
        | none => none
        | some d =>
          match parseStrChars f rest2 with
          | some (cs, rem) => some (d :: cs, rem)
          | none => none
    else
      match parseStrChars f rest with
      | some (cs, rem) => some (c :: cs, rem)
      | none => none

/-- Value of a digit string. -/
def digitsToNat (ds : List Char) : Nat := ds.foldl (fun a c => a * 10 + digitVal c) 0

/-- Parse a JSON integer literal (fractions and exponents rejected: the
model covers integer numerals only). -/
def parseNum (l : List Char) : Option (Json × List Char) :=
  let neg := match l with
             | c :: _ => c == '-'
             | [] => false
  let l2 := if neg then l.tail else l
  let ds := l2.takeWhile Char.isDigit
  let rem := l2.dropWhile Char.isDigit
  if ds.isEmpty then none
  else
    match rem with
    | '.' :: _ => none
    | 'e' :: _ => none
    | 'E' :: _ => none
    | _ => some (.num (if neg then -(digitsToNat ds : Int) else (digitsToNat ds : Int)), rem)

mutual

/-- Parse one JSON value (fuel-indexed recursive-descent). -/
def parseVal : Nat → List Char → Option (Json × List Char)
  | 0, _ => none
  | f + 1, l =>
    match skipWs l with
    | [] => none
    | c :: rest =>
      if c == '"' then
        match parseStrChars (f + 1) rest with
        | some (cs, rem) => some (.str ⟨cs⟩, rem)
        | none => none
      else if c == '\x7b' then
        match skipWs rest with
        | '\x7d' :: rem => some (.obj [], rem)
        | _ =>
          match parseFields f rest with
          | some (fs, rem) => some (.obj fs, rem)
          | none => none
      else if c == '[' then
        match skipWs rest with
        | ']' :: rem => some (.arr [], rem)
        | _ =>
          match parseElems f rest with
          | some (vs, rem) => some (.arr vs, rem)
          | none => none
      else if c == 't' then
        match c :: rest with
        | 't' :: 'r' :: 'u' :: 'e' :: rem => some (.bool true, rem)
        | _ => none
      else if c == 'f' then
        match c :: rest with
        | 'f' :: 'a' :: 'l' :: 's' :: 'e' :: rem => some (.bool false, rem)
        | _ => none
      else if c == 'n' then
        match c :: rest with
        | 'n' :: 'u' :: 'l' :: 'l' :: rem => some (.null, rem)
        | _ => none
      else if c == '-' || c.isDigit then parseNum (c :: rest)
      else none

/-- Parse `"key": value` pairs up to the closing brace. -/
def parseFields : Nat → List Char → Option (List (String × Json) × List Char)
  | 0, _ => none
  | f + 1, l =>
    match skipWs l with
    | '"' :: rest =>
      match parseStrChars (f + 1) rest with
      | some (key, rem) =>
        match skipWs rem with
        | ':' :: rem2 =>
          match parseVal f rem2 with
          | some (v, rem3) =>
            match skipWs rem3 with
            | ',' :: rem4 =>
              match parseFields f rem4 with
              | some (fs, rem5) => some ((⟨key⟩, v) :: fs, rem5)
              | none => none
            | '\x7d' :: rem4 => some ([(⟨key⟩, v)], rem4)
            | _ => none
          | none => none
        | _ => none
      | none => none
    | _ => none

/-- Parse array elements up to the closing bracket. -/
def parseElems : Nat → List Char → Option (List Json × List Char)
  | 0, _ => none
  | f + 1, l =>
    match parseVal f l with
    | some (v, rem) =>
      match skipWs rem with
      | ',' :: rem2 =>
        match parseElems f rem2 with
        | some (vs, rem3) => some (v :: vs, rem3)
        | none => none
      | ']' :: rem2 => some ([v], rem2)
      | _ => none
    | none => none

end

/-- Modelled from the host environment: `JSON.parse` on the JSON subset
used by Day One exports (objects, arrays, strings with basic escapes,
integers, booleans, null); a syntax error is `none`. -/
def miniJsonParse (s : String) : Option Json :=
  match parseVal (s.data.length + 2) s.data with
  | some (v, rem) => if (skipWs rem).isEmpty then some v else none
  | none => none

/-- The Boolean order on entries induced by the sort comparator
`(a, b) => parseDate(a) - parseDate(b)` (main.js:179). -/
def entryLE (dp : String → Option Int) (a b : Entry) : Bool :=
  decide (parseDate dp a ≤ parseDate dp b)

/-- `sortEntries` (main.js:178-180): `Array.prototype.sort` is a stable
sort, modeled by the stable `List.mergeSort`. -/
def sortEntries (dp : String → Option Int) (entries : List Entry) : List Entry :=
  entries.mergeSort (entryLE dp)

/-- One rendered block (main.js:169-172):
``(`# ${title}\n\n${body}`).trim()`` with
`title = formatTimestamp(entry.creationDate || entry.modifiedDate)`. -/
def mdSection (dp : String → Option Int) (jp : String → Option Json) (e : Entry) : String :=
  jsTrim ("# " ++ formatTimestamp dp (jsOrStr e.creationDate e.modifiedDate)
    ++ "\n\n" ++ getEntryText jp e)

/-- The `sections` array of `toMarkdown` (main.js:169-173). -/
def mdSections (dp : String → Option Int) (jp : String → Option Json)
    (entries : List Entry) : List String :=
  (sortEntries dp entries).map (mdSection dp jp)

/-- `Array.prototype.join(sep)`. -/
def joinSep (sep : String) : List String → String
  | [] => ""
  | [x] => x
  | x :: y :: xs => x ++ sep ++ joinSep sep (y :: xs)

/-- `toMarkdown` (main.js:167-176). -/
def toMarkdown (dp : String → Option Int) (jp : String → Option Json)
    (entries : List Entry) : String :=
  joinSep "\n\n---\n\n" (mdSections dp jp entries)

/-- The `candidates` array of `parseJournalFromZip` (main.js:150-155):
stream names whose lowercased form ends with `journal.json`, in source
enumeration order. -/
def journalCandidates (names : List String) : List String :=
  names.filter (fun n => jsEndsWith (lowerStr n) "journal.json")

/-- The Boolean order induced by the comparator
`(a, b) => a.length - b.length` (main.js:161). -/
def lenLE (a b : String) : Bool := decide (a.length ≤ b.length)

/-- The stream selected by `parseJournalFromZip` (main.js:146-165):
`candidates.sort((a, b) => a.length - b.length)` (stable) followed by
`candidates[0]`; `none` when no stream qualifies. -/
def selectJournal (names : List String) : Option String :=
  ((journalCandidates names).mergeSort lenLE).head?

/-- Selection policy as worded by the specification: the qualifying
stream whose full path string is shortest, ties resolved to source
enumeration order (first occurrence). -/
def firstShortest : List String → Option String
  | [] => none
  | x :: xs =>
    match firstShortest xs with
    | none => some x
    | some y => if x.length ≤ y.length then some x else some y

/-- Projection of a raw JSON entry object to the fields the pipeline
reads; non-string values are modeled as absent (the `typeof` and
truthiness guards in `main.js` make them behave so for the fields used
by the properties verified here). -/
def jsonStrField (j : Json) (k : String) : Option String :=
  match j.getField k with
  | some (.str s) => some s
  | _ => none

/-- Raw JSON entry → `Entry`. -/
def entryOfJson (j : Json) : Entry :=
  { creationDate := jsonStrField j "creationDate"
    modifiedDate := jsonStrField j "modifiedDate"
    text := jsonStrField j "text"
    richText := jsonStrField j "richText" }

/-- `Array.isArray(journal?.entries) ? journal.entries : []` (main.js:120). -/
def entriesOf (journal : Json) : List Json :=
  match journal.getField "entries" with
  | some (.arr l) => l
  | _ => []

/-- Status banner states set through the `state` helper (main.js:14-35). -/
inductive Status where
  | ready
  | processing
  | success (msg : String)
  | error (msg : String)
deriving DecidableEq

/-- The session state mutated by `processFile`: the stored markdown
(`currentMarkdown`), the preview area, the meta line, the two action
buttons, and the status banner. -/
structure Session where
  currentMarkdown : String
  previewValue : String
  metaText : String
  copyEnabled : Bool
  downloadEnabled : Bool
  status : Status
deriving DecidableEq

/-- `setNoOutput` (main.js:232-238). -/
def setNoOutput (st : Session) : Session :=
  { st with currentMarkdown := "", previewValue := "", metaText := "",
            copyEnabled := false, downloadEnabled := false }

/-- One selected file: its name, its text when read directly, and (for
archives) the named streams with their decoded contents. -/
structure FileInput where
  name : String
  text : String
  zipNames : List String
  readStream : String → String

/-- Successful conversion data: the markdown, the meta line, and the
success banner text. -/
structure ConvOk where
  markdown : String
  meta : String
  doneMsg : String

/-- The text of the document to parse: the file's own text in the
`.json` path (main.js:115), or the selected stream of the archive in the
`.zip` path, failing with the `DocumentNotFound` message when no stream
qualifies (main.js:117, main.js:157-163). -/
def locateText (f : FileInput) (isJson : Bool) : Except String String :=
  if isJson then .ok f.text
  else
    match selectJournal f.zipNames with
    | some n => .ok (f.readStream n)
    | none => .error "No Journal.json found in zip export"

/-- The body of the `try` block of `processFile` (main.js:110-139) as a
fallible computation; each `throw` is an `Except.error` carrying the
user-facing message (the malformed-JSON message is host-generated and
modeled by a fixed placeholder). -/
def convertBody (dp : String → Option Int) (jp : String → Option Json)
    (f : FileInput) (isJson : Bool) : Except String ConvOk :=
  match locateText f isJson with
  | .error msg => .error msg
  | .ok jtext =>
    match jp jtext with
    | none => .error "Unexpected token in JSON"
    | some journal =>
      if (entriesOf journal).isEmpty then .error "No entries found in Journal.json"
      else if jsTrim (toMarkdown dp jp ((entriesOf journal).map entryOfJson)) = "" then
        .error "Could not build markdown output from entries"
      else
        .ok { markdown := toMarkdown dp jp ((entriesOf journal).map entryOfJson)
              meta := "Range: "
                ++ formatTimestamp dp
                  ((sortEntries dp ((entriesOf journal).map entryOfJson)).head?.bind
                    Entry.creationDate)
                ++ " to "
                ++ formatTimestamp dp
                  ((sortEntries dp ((entriesOf journal).map entryOfJson)).getLast?.bind
                    Entry.creationDate)
                ++ " (UTC). Processed locally in your browser."
              doneMsg := "Done. " ++ toString (entriesOf journal).length
                ++ " entries converted." }

/-- `processFile` (main.js:99-144) as a state transformer on the session:
suffix gate, conversion attempt, and either the success updates
(main.js:130-139) or the catch handler `setNoOutput` + `setError`
(main.js:140-143). -/
def processFile (dp : String → Option Int) (jp : String → Option Json)
    (f : FileInput) (st : Session) : Session :=
  if !(jsEndsWith (lowerStr f.name) ".json") && !(jsEndsWith (lowerStr f.name) ".zip") then
    { setNoOutput st with
      status := .error "Unsupported file type. Use Day One .zip or Journal.json" }
  else
    match convertBody dp jp f (jsEndsWith (lowerStr f.name) ".json") with
    | .error msg => { setNoOutput st with status := .error msg }
    | .ok r =>
      { currentMarkdown := r.markdown, previewValue := r.markdown,
        metaText := r.meta, copyEnabled := true, downloadEnabled := true,
        status := .success r.doneMsg }

/-- No two consecutive backslashes. -/
def noBB : List Char → Bool
  | a :: b :: rest => !(a == bsChar && b == bsChar) && noBB (b :: rest)
  | _ => true

/-- No backslash immediately followed by a period or hyphen (i.e. the
cleanup regex has nothing left to match). -/
def cleanCh : List Char → Bool
  | a :: b :: rest => !(a == bsChar && isDotDash b) && cleanCh (b :: rest)
  | _ => true

theorem isDotDash_ne_bs {c : Char} (h : isDotDash c = true) : (c == bsChar) = false := by
  simp only [isDotDash, Bool.or_eq_true, beq_iff_eq] at h
  rcases h with h | h <;> subst h <;> decide

theorem cleanupChars_of_cleanCh : ∀ {l : List Char}, cleanCh l = true → cleanupChars l = l
  | [], _ => rfl
  | [c], _ => rfl
  | a :: b :: rest, h => by
    simp only [cleanCh, Bool.and_eq_true, Bool.not_eq_true'] at h
    rw [cleanupChars, if_neg (by simp [h.1]), cleanupChars_of_cleanCh h.2]

theorem noBB_tail : ∀ {x : Char} {xs : List Char}, noBB (x :: xs) = true → noBB xs = true := by
  intro x xs h
  match xs with
  | [] => rfl
  | b :: rest =>
    simp only [noBB, Bool.and_eq_true] at h
    exact h.2

theorem cleanCh_cons_not_bs {x : Char} (hx : (x == bsChar) = false) (t : List Char) :
    cleanCh (x :: t) = cleanCh t := by
  match t with
  | [] => rfl
  | b :: rest => simp [cleanCh, hx]

theorem noBB_cons_not_bs {x : Char} (hx : (x == bsChar) = false) (t : List Char) :
    noBB (x :: t) = noBB t := by
  match t with
  | [] => rfl
  | b :: rest => simp [noBB, hx]

theorem cleanupChars_cons_not_bs {b : Char} (hb : (b == bsChar) = false) (rest : List Char) :
    cleanupChars (b :: rest) = b :: cleanupChars rest := by
  match rest with
  | [] => rfl
  | c :: t => rw [cleanupChars, if_neg (by simp [hb])]

theorem cleanup_preserves : ∀ {l : List Char}, noBB l = true →
    cleanCh (cleanupChars l) = true ∧ noBB (cleanupChars l) = true
  | [], _ => ⟨rfl, rfl⟩
  | [c], _ => ⟨rfl, rfl⟩
  | a :: b :: rest, h => by
    have hab : ¬(a == bsChar && b == bsChar) = true := by
      simp only [noBB, Bool.and_eq_true, Bool.not_eq_true'] at h
      simp [h.1]
    have hrest : noBB (b :: rest) = true := noBB_tail h
    by_cases hc : (a == bsChar && isDotDash b) = true
    · have hb : (b == bsChar) = false :=
        isDotDash_ne_bs (Bool.and_elim_right hc)
      have ih := cleanup_preserves (noBB_tail hrest)
      rw [cleanupChars, if_pos hc]
      rw [cleanCh_cons_not_bs hb, noBB_cons_not_bs hb]
      exact ih
    · rw [cleanupChars, if_neg hc]
      have ih := cleanup_preserves hrest
      by_cases ha : (a == bsChar) = true
      · have hb : (b == bsChar) = false := by
          cases hbb : (b == bsChar) <;> simp_all
        have hdb : isDotDash b = false := by
          cases hdb : isDotDash b <;> simp_all
        rw [cleanupChars_cons_not_bs hb]
        refine ⟨?_, ?_⟩
        · rw [show cleanCh (a :: b :: cleanupChars rest)
              = (!(a == bsChar && isDotDash b) && cleanCh (b :: cleanupChars rest)) from rfl]
          rw [← cleanupChars_cons_not_bs hb]
          simp [hdb, ih.1]
        · rw [show noBB (a :: b :: cleanupChars rest)
              = (!(a == bsChar && b == bsChar) && noBB (b :: cleanupChars rest)) from rfl]
          rw [← cleanupChars_cons_not_bs hb]
          simp [hb, ih.2]
      · have ha' : (a == bsChar) = false := by cases h' : (a == bsChar) <;> simp_all
        rw [cleanCh_cons_not_bs ha', noBB_cons_not_bs ha']
        exact ih

theorem cleanup_idem_of_noBB {l : List Char} (h : noBB l = true) :
    cleanupChars (cleanupChars l) = cleanupChars l :=
  cleanupChars_of_cleanCh (cleanup_preserves h).1

theorem mergeSort_pair {α : Type _} (le : α → α → Bool) (a b : α) :
    [a, b].mergeSort le = if le a b then [a, b] else [b, a] := by
  rw [List.mergeSort]
  simp [List.splitInTwo, List.splitAt_eq, List.merge]

theorem entryLE_trans (dp : String → Option Int) : ∀ a b c : Entry,
    entryLE dp a b → entryLE dp b c → entryLE dp a c := by
  intro a b c hab hbc
  simp only [entryLE, decide_eq_true_eq] at *
  omega

theorem entryLE_total (dp : String → Option Int) : ∀ a b : Entry,
    entryLE dp a b || entryLE dp b a := by
  intro a b
  simp only [entryLE, Bool.or_eq_true, decide_eq_true_eq]
  exact Int.le_total _ _

theorem pair_sublist_of_mem {α : Type _} {a b : α} :
    ∀ {l : List α}, a ∈ l → b ∈ l → a ≠ b →
      List.Sublist [a, b] l ∨ List.Sublist [b, a] l := by
  intro l
  induction l with
  | nil => intro h; cases h
  | cons x xs ih =>
    intro ha hb hne
    rcases List.mem_cons.mp ha with rfl | ha'
    · rcases List.mem_cons.mp hb with rfl | hb'
      · exact absurd rfl hne
      · exact Or.inl (List.cons_sublist_cons.mpr (List.singleton_sublist.mpr hb'))
    · rcases List.mem_cons.mp hb with rfl | hb'
      · exact Or.inr (List.cons_sublist_cons.mpr (List.singleton_sublist.mpr ha'))
      · rcases ih ha' hb' hne with h | h
        · exact Or.inl (h.cons x)
        · exact Or.inr (h.cons x)

theorem lenLE_trans : ∀ a b c : String, lenLE a b → lenLE b c → lenLE a c := by
  intro a b c hab hbc
  simp only [lenLE, decide_eq_true_eq] at *
  omega

theorem lenLE_total : ∀ a b : String, lenLE a b || lenLE b a := by
  intro a b
  simp only [lenLE, Bool.or_eq_true, decide_eq_true_eq]
  omega

theorem firstShortest_eq_none : ∀ {l : List String}, firstShortest l = none → l = []
  | [], _ => rfl
  | x :: xs, h => by
    rw [firstShortest] at h
    cases hfs : firstShortest xs with
    | none => rw [hfs] at h; cases h
    | some y => rw [hfs] at h; by_cases hx : x.length ≤ y.length <;> simp [hx] at h

theorem firstShortest_spec : ∀ {l : List String} {m : String}, firstShortest l = some m →
    m ∈ l ∧ ∀ x ∈ l, m.length ≤ x.length
  | [], m, h => by cases h
  | x :: xs, m, h => by
    rw [firstShortest] at h
    cases hfs : firstShortest xs with
    | none =>
      rw [hfs] at h
      cases h
      have hxs := firstShortest_eq_none hfs
      subst hxs
      refine ⟨List.mem_singleton.mpr rfl, ?_⟩
      intro z hz
      rw [List.mem_singleton.mp hz]
    | some y =>
      rw [hfs] at h
      dsimp only at h
      have ih := firstShortest_spec hfs
      by_cases hx : x.length ≤ y.length
      · rw [if_pos hx] at h
        cases h
        refine ⟨List.mem_cons_self _ _, ?_⟩
        intro z hz
        rcases List.mem_cons.mp hz with rfl | hz'
        · exact Nat.le_refl _
        · exact Nat.le_trans hx (ih.2 z hz')
      · rw [if_neg hx] at h
        cases h
        refine ⟨List.mem_cons_of_mem _ ih.1, ?_⟩
        intro z hz
        rcases List.mem_cons.mp hz with rfl | hz'
        · omega
        · exact ih.2 z hz'

theorem firstShortest_strict : ∀ {l : List String} {m y : String}, l.Nodup →
    firstShortest l = some m → List.Sublist [y, m] l → y ≠ m → m.length < y.length
  | [], m, y, _, h, hsub, _ => by cases h
  | x :: xs, m, y, hnd, h, hsub, hne => by
    rw [firstShortest] at h
    cases hfs : firstShortest xs with
    | none =>
      have hxs := firstShortest_eq_none hfs
      subst hxs
      have := hsub.length_le
      simp at this
    | some z =>
      rw [hfs] at h
      dsimp only at h
      by_cases hx : x.length ≤ z.length
      · rw [if_pos hx] at h
        cases h
        cases hsub with
        | cons _ h' =>
          exact absurd (h'.subset (by simp)) (List.nodup_cons.mp hnd).1
        | cons₂ _ h' =>
          exact absurd rfl hne
      · rw [if_neg hx] at h
        cases h
        cases hsub with
        | cons _ h' =>
          exact firstShortest_strict (List.nodup_cons.mp hnd).2 hfs h' hne
        | cons₂ _ h' =>
          omega

theorem selectJournal_eq_firstShortest {names : List String} (hnd : names.Nodup) :
    selectJournal names = firstShortest (journalCandidates names) := by
  have hcnd : (journalCandidates names).Nodup :=
    hnd.sublist (List.filter_sublist names)
  unfold selectJournal
  cases hc : (journalCandidates names).mergeSort lenLE with
  | nil =>
    have : journalCandidates names = [] := by
      have := congrArg List.length hc
      rw [List.length_mergeSort] at this
      exact List.length_eq_zero.mp this
    rw [this]
    rfl
  | cons n t =>
    have hmemn : n ∈ journalCandidates names := by
      have hmem0 : n ∈ (journalCandidates names).mergeSort lenLE := by
        rw [hc]
        exact List.mem_cons_self _ _
      exact List.mem_mergeSort.mp hmem0
    have hsorted := List.sorted_mergeSort lenLE_trans lenLE_total (journalCandidates names)
    rw [hc] at hsorted
    have hmin : ∀ x ∈ journalCandidates names, n.length ≤ x.length := by
      intro x hx
      have hx2 : x ∈ n :: t := by
        rw [← hc]
        exact List.mem_mergeSort.mpr hx
      rcases List.mem_cons.mp hx2 with rfl | hx3
      · exact Nat.le_refl _
      · have := List.rel_of_pairwise_cons hsorted hx3
        simpa [lenLE] using this
    cases hfs : firstShortest (journalCandidates names) with
    | none =>
      rw [firstShortest_eq_none hfs] at hmemn
      cases hmemn
    | some fm =>
      have hfm := firstShortest_spec hfs
      by_cases hnm : n = fm
      · rw [hnm]
        rfl
      · rcases pair_sublist_of_mem hmemn hfm.1 hnm with hp | hp
        · have := firstShortest_strict hcnd hfs hp hnm
          have := hmin fm hfm.1
          omega
        · have hle : lenLE fm n = true := by
            simp only [lenLE, decide_eq_true_eq]
            exact hfm.2 n hmemn
          have hsub2 : List.Sublist [fm, n] ((journalCandidates names).mergeSort lenLE) :=
            List.sublist_mergeSort lenLE_trans lenLE_total
              (List.pairwise_pair.mpr hle) hp
          rw [hc] at hsub2
          have hndm : (n :: t).Nodup := by
            rw [← hc]
            exact hcnd.perm (List.mergeSort_perm _ _).symm
          cases hsub2 with
          | cons _ h' =>
            exact absurd (h'.subset (by simp)) (List.nodup_cons.mp hndm).1
          | cons₂ _ h' =>
            exact absurd rfl hnm

/-- C2 counterexample: the cleanup transform is not idempotent on the
three-character input backslash-backslash-period: one application yields
backslash-period, a second application yields a bare period. -/
theorem cleanup_not_idempotent_cex :
    cleanupText (cleanupText "\\\\.") ≠ cleanupText "\\\\."
    ∧ cleanupText "\\\\." = "\\." ∧ cleanupText (cleanupText "\\\\.") = "." := by
  refine ⟨?_, by decide, by decide⟩
  decide

/-- C2 (amended): the cleanup transform is idempotent on every input
string that contains no two consecutive backslashes (the counterexample
forces this restriction: a backslash-escaped backslash before a
period/hyphen is re-matched by the second pass). -/
theorem cleanup_idempotent_no_double_backslash (s : String) (h : noBB s.data = true) :
    cleanupText (cleanupText s) = cleanupText s := by
  unfold cleanupText
  exact congrArg String.mk (cleanup_idem_of_noBB h)

/-- Witness for `cleanup_idempotent_no_double_backslash` at a concrete
input with single-backslash escapes. -/
theorem cleanup_idempotent_witness :
    noBB "a\\.b \\- c.d".data = true
    ∧ cleanupText (cleanupText "a\\.b \\- c.d") = cleanupText "a\\.b \\- c.d" :=
  ⟨by decide, cleanup_idempotent_no_double_backslash "a\\.b \\- c.d" (by decide)⟩

/-- C3: for every input entry list, rendering produces exactly one block
per entry (count preserved through the stable sort and the map), and the
output document is exactly those blocks joined with the separator. -/
theorem entry_count_preservation (dp : String → Option Int) (jp : String → Option Json)
    (entries : List Entry) :
    (mdSections dp jp entries).length = entries.length
    ∧ toMarkdown dp jp entries = joinSep "\n\n---\n\n" (mdSections dp jp entries) := by
  constructor
  · simp [mdSections, sortEntries]
  · rfl

/-- C4: the entry sort is stable: for every date parser, entry list and
instant `k`, the entries resolving to `k` appear in the sorted output in
exactly their input order (and the output is a permutation of the input). -/
theorem sort_stability (dp : String → Option Int) (l : List Entry) (k : Int) :
    (sortEntries dp l).filter (fun e => parseDate dp e == k)
      = l.filter (fun e => parseDate dp e == k)
    ∧ (sortEntries dp l).Perm l := by
  refine ⟨?_, List.mergeSort_perm l (entryLE dp)⟩
  set p : Entry → Bool := fun e => parseDate dp e == k with hp
  have hpair : (l.filter p).Pairwise (fun a b => entryLE dp a b = true) := by
    apply List.pairwise_of_forall_mem_list
    intro a ha b hb
    have hak := (List.mem_filter.mp ha).2
    have hbk := (List.mem_filter.mp hb).2
    simp only [hp, beq_iff_eq] at hak hbk
    simp [entryLE, hak, hbk]
  have hsub : List.Sublist (l.filter p) (sortEntries dp l) :=
    List.sublist_mergeSort (entryLE_trans dp) (entryLE_total dp) hpair (List.filter_sublist l)
  have hself : (l.filter p).filter p = l.filter p :=
    List.filter_eq_self.mpr (fun a ha => (List.mem_filter.mp ha).2)
  have hsub2 : List.Sublist (l.filter p) ((sortEntries dp l).filter p) := by
    have := hsub.filter p
    rwa [hself] at this
  have hperm : ((sortEntries dp l).filter p).Perm (l.filter p) :=
    (List.mergeSort_perm l (entryLE dp)).filter p
  exact (hsub2.eq_of_length hperm.length_eq.symm).symm

/-- C6: among archive streams whose name ends (case-insensitively) with
`journal.json`, the selected stream is the one with the shortest full
path, ties resolved to enumeration order; in particular an archive with
`Journal.json` and `Export/Journal.json` selects `Journal.json`. -/
theorem journal_stream_selection (names : List String) (hnd : names.Nodup) :
    selectJournal names = firstShortest (journalCandidates names)
    ∧ selectJournal ["Journal.json", "Export/Journal.json"] = some "Journal.json" := by
  refine ⟨selectJournal_eq_firstShortest hnd, ?_⟩
  rw [selectJournal_eq_firstShortest (by decide)]
  decide

/-- Witness for `journal_stream_selection` at the two-stream archive. -/
theorem journal_stream_selection_witness :
    (["Journal.json", "Export/Journal.json"] : List String).Nodup
    ∧ selectJournal ["Journal.json", "Export/Journal.json"]
        = firstShortest (journalCandidates ["Journal.json", "Export/Journal.json"]) :=
  ⟨by decide, (journal_stream_selection ["Journal.json", "Export/Journal.json"] (by decide)).1⟩

/-- C1 counterexample: an entry whose `creationDate` is present but
unparseable and whose `modifiedDate` is parseable resolves to the epoch
sentinel `0`, not to the `modifiedDate` instant: the `||` chain in
`parseDate` never consults `modifiedDate` when `creationDate` is a
non-empty string. -/
theorem timestamp_resolution_cex :
    isoDateParse "not-a-date" = none
    ∧ isoDateParse "2023-05-01T14:03:09Z" = some 1682949789000
    ∧ parseDate isoDateParse
        ⟨some "not-a-date", some "2023-05-01T14:03:09Z", none, none⟩ = 0
    ∧ (0 : Int) ≠ 1682949789000 :=
  ⟨by decide, by decide, by decide, by decide⟩

/-- C1 (amended): the resolved instant is the parsed `creationDate` when
`creationDate` is present, non-empty and parseable; when `creationDate`
is present, non-empty and unparseable the instant is the epoch sentinel
`0` with no fallback; `modifiedDate` is consulted, with the same rule, only
when `creationDate` is absent or empty; when both are absent or empty
the instant is the sentinel `0`. -/
theorem timestamp_resolution (dp : String → Option Int) (e : Entry) (hdp : dp "" = none) :
    (∀ s v, e.creationDate = some s → s ≠ "" → dp s = some v → parseDate dp e = v)
    ∧ (∀ s, e.creationDate = some s → s ≠ "" → dp s = none → parseDate dp e = 0)
    ∧ (∀ s v, (e.creationDate = none ∨ e.creationDate = some "") →
        e.modifiedDate = some s → s ≠ "" → dp s = some v → parseDate dp e = v)
    ∧ (∀ s, (e.creationDate = none ∨ e.creationDate = some "") →
        e.modifiedDate = some s → s ≠ "" → dp s = none → parseDate dp e = 0)
    ∧ ((e.creationDate = none ∨ e.creationDate = some "") →
        (e.modifiedDate = none ∨ e.modifiedDate = some "") → parseDate dp e = 0) := by
  refine ⟨?_, ?_, ?_, ?_, ?_⟩
  · intro s v hc hs hv
    simp [parseDate, rawDate, jsOrStr, hc, hs, hv]
  · intro s hc hs hv
    simp [parseDate, rawDate, jsOrStr, hc, hs, hv]
  · intro s v hc hm hs hv
    rcases hc with hc | hc <;> simp [parseDate, rawDate, jsOrStr, hc, hm, hs, hv]
  · intro s hc hm hs hv
    rcases hc with hc | hc <;> simp [parseDate, rawDate, jsOrStr, hc, hm, hs, hv]
  · intro hc hm
    rcases hc with hc | hc <;> rcases hm with hm | hm <;>
      simp [parseDate, rawDate, jsOrStr, hc, hm, hdp]

/-- Witness for `timestamp_resolution`: a parseable `creationDate`
resolves to its instant. -/
theorem timestamp_resolution_witness :
    parseDate isoDateParse ⟨some "2023-05-01T14:03:09Z", none, none, none⟩ = 1682949789000 :=
  (timestamp_resolution isoDateParse ⟨some "2023-05-01T14:03:09Z", none, none, none⟩
    (by decide)).1 "2023-05-01T14:03:09Z" 1682949789000 rfl (by decide) (by decide)

/-- C5 counterexample: an entry with a valid, parseable pre-epoch
`creationDate` sorts strictly before the entry with no dates at all, so
the dateless entry does not sort before every entry with a valid date. -/
theorem missing_timestamp_sentinel_cex :
    isoDateParse "1969-12-31T00:00:00Z" = some (-86400000)
    ∧ sortEntries isoDateParse
        [⟨none, none, none, none⟩, ⟨some "1969-12-31T00:00:00Z", none, none, none⟩]
      = [⟨some "1969-12-31T00:00:00Z", none, none, none⟩, ⟨none, none, none, none⟩] := by
  refine ⟨by decide, ?_⟩
  unfold sortEntries
  rw [mergeSort_pair]
  decide

/-- C5 (amended): an entry with neither `creationDate` nor `modifiedDate`
resolves to the sentinel instant `0`, hence sorts before every entry
whose resolved date is strictly after the epoch (the sort output is
ascending in resolved instants), and its rendered header is exactly
`1970-01-01 00-00-00`.  (The unamended claim fails for valid pre-epoch
dates, whose instants are negative.) -/
theorem missing_timestamp_sentinel (dp : String → Option Int) (e f : Entry) (l : List Entry)
    (v : Int) (hdp : dp "" = none)
    (hc : e.creationDate = none) (hm : e.modifiedDate = none)
    (hf : dp (rawDate f) = some v) (hv : 0 < v) :
    parseDate dp e = 0
    ∧ parseDate dp e < parseDate dp f
    ∧ (sortEntries dp l).Pairwise (fun a b => parseDate dp a ≤ parseDate dp b)
    ∧ formatTimestamp dp (jsOrStr e.creationDate e.modifiedDate) = "1970-01-01 00-00-00" := by
  have h0 : parseDate dp e = 0 := by simp [parseDate, rawDate, jsOrStr, hc, hm, hdp]
  refine ⟨h0, ?_, ?_, ?_⟩
  · rw [h0]
    simpa [parseDate, hf] using hv
  · have hs := List.sorted_mergeSort (entryLE_trans dp) (entryLE_total dp) l
    exact hs.imp (by intro a b h; simpa [entryLE] using h)
  · simp only [hc, hm]
    show fmtEpochMs 0 = "1970-01-01 00-00-00"
    decide

/-- Witness for `missing_timestamp_sentinel` at concrete entries. -/
theorem missing_timestamp_sentinel_witness :
    parseDate isoDateParse ⟨none, none, none, none⟩ = 0
    ∧ parseDate isoDateParse ⟨none, none, none, none⟩
        < parseDate isoDateParse ⟨some "2023-05-01T14:03:09Z", none, none, none⟩
    ∧ (sortEntries isoDateParse
        [⟨some "2023-05-01T14:03:09Z", none, none, none⟩,
         ⟨none, none, none, none⟩]).Pairwise
        (fun a b => parseDate isoDateParse a ≤ parseDate isoDateParse b)
    ∧ formatTimestamp isoDateParse (jsOrStr none none) = "1970-01-01 00-00-00" :=
  missing_timestamp_sentinel isoDateParse ⟨none, none, none, none⟩
    ⟨some "2023-05-01T14:03:09Z", none, none, none⟩
    [⟨some "2023-05-01T14:03:09Z", none, none, none⟩, ⟨none, none, none, none⟩]
    1682949789000 (by decide) rfl rfl (by decide) (by decide)

/-- C7: body resolution follows the priority chain of `getEntryText`: a
plain `text` that is non-empty after trimming wins and is cleaned; else a
parseable `richText` whose concatenated part texts are non-empty after
trimming yields that cleaned concatenation; a present unparseable
`richText`, or no rule yielding content, gives the literal
`"[No content]"`; including the two concrete scenarios of the spec. -/
theorem body_resolution (jp : String → Option Json) (e : Entry) :
    (∀ t, e.text = some t → jsTrim t ≠ "" → getEntryText jp e = cleanupText (jsTrim t))
    ∧ (∀ rt v, jsTrim (e.text.getD "") = "" → e.richText = some rt → jsTrim rt ≠ "" →
        jp rt = some v → richChunks v ≠ "" → getEntryText jp e = cleanupText (richChunks v))
    ∧ (∀ rt, jsTrim (e.text.getD "") = "" → e.richText = some rt → jsTrim rt ≠ "" →
        jp rt = none → getEntryText jp e = "[No content]")
    ∧ (∀ rt v, jsTrim (e.text.getD "") = "" → e.richText = some rt → jsTrim rt ≠ "" →
        jp rt = some v → richChunks v = "" → getEntryText jp e = "[No content]")
    ∧ (jsTrim (e.text.getD "") = "" →
        (e.richText = none ∨ (∀ rt, e.richText = some rt → jsTrim rt = "")) →
        getEntryText jp e = "[No content]")
    ∧ getEntryText miniJsonParse
        ⟨none, none, some "",
         some "\x7b\"contents\":[\x7b\"text\":\"Hello\"\x7d,\x7b\"text\":\" world\"\x7d]\x7d"⟩
      = "Hello world"
    ∧ getEntryText miniJsonParse ⟨none, none, some "", some "not-json"⟩ = "[No content]" := by
  refine ⟨?_, ?_, ?_, ?_, ?_, by rfl, by rfl⟩
  · intro t ht hnt
    simp [getEntryText, ht, hnt]
  · intro rt v h0 hrt hnrt hjp hch
    simp [getEntryText, h0, hrt, hnrt, hjp, hch]
  · intro rt h0 hrt hnrt hjp
    simp [getEntryText, h0, hrt, hnrt, hjp]
  · intro rt v h0 hrt hnrt hjp hch
    simp [getEntryText, h0, hrt, hnrt, hjp, hch]
  · intro h0 hr
    rcases hr with hr | hr
    · simp [getEntryText, h0, hr]
    · cases hrt : e.richText with
      | none => simp [getEntryText, h0, hrt]
      | some rt => simp [getEntryText, h0, hrt, hr rt hrt]

/-- Witness for `body_resolution`: the rich-text fallback scenario with
its parsed structure made explicit. -/
theorem body_resolution_witness :
    getEntryText miniJsonParse
      ⟨none, none, some "",
       some "\x7b\"contents\":[\x7b\"text\":\"Hello\"\x7d,\x7b\"text\":\" world\"\x7d]\x7d"⟩
      = cleanupText (richChunks (Json.obj [("contents", Json.arr
          [Json.obj [("text", Json.str "Hello")], Json.obj [("text", Json.str " world")]])])) :=
  (body_resolution miniJsonParse
      ⟨none, none, some "",
       some "\x7b\"contents\":[\x7b\"text\":\"Hello\"\x7d,\x7b\"text\":\" world\"\x7d]\x7d"⟩).2.1
    "\x7b\"contents\":[\x7b\"text\":\"Hello\"\x7d,\x7b\"text\":\" world\"\x7d]\x7d"
    (Json.obj [("contents", Json.arr
      [Json.obj [("text", Json.str "Hello")], Json.obj [("text", Json.str " world")]])])
    (by decide) rfl (by decide) (by rfl) (by decide)

theorem mem_dropWhile_of_mem {p : Char → Bool} {c : Char} :
    ∀ {l : List Char}, c ∈ l → p c = false → c ∈ l.dropWhile p := by
  intro l
  induction l with
  | nil => intro h; cases h
  | cons x xs ih =>
    intro hc hpc
    rcases List.mem_cons.mp hc with rfl | hc'
    · rw [List.dropWhile_cons, if_neg (by simp [hpc])]
      exact List.mem_cons_self _ _
    · rw [List.dropWhile_cons]
      by_cases hpx : p x = true
      · rw [if_pos (by simp [hpx])]
        exact ih hc' hpc
      · rw [if_neg (by simp_all)]
        exact List.mem_cons_of_mem _ hc'

theorem mem_trimChars {c : Char} {l : List Char} (h : c ∈ l) (hc : jsWS c = false) :
    c ∈ trimChars l := by
  unfold trimChars
  exact List.mem_reverse.mpr
    (mem_dropWhile_of_mem (List.mem_reverse.mpr (mem_dropWhile_of_mem h hc)) hc)

theorem jsTrim_ne_empty {s : String} {c : Char} (h : c ∈ s.data) (hc : jsWS c = false) :
    jsTrim s ≠ "" := by
  intro heq
  have hdata : trimChars s.data = [] := congrArg String.data heq
  have hm := mem_trimChars h hc
  rw [hdata] at hm
  cases hm

theorem mdSection_has_hash (dp : String → Option Int) (jp : String → Option Json)
    (e : Entry) : '#' ∈ (mdSection dp jp e).data := by
  show '#' ∈ trimChars ("# " ++ formatTimestamp dp (jsOrStr e.creationDate e.modifiedDate)
    ++ "\n\n" ++ getEntryText jp e).data
  apply mem_trimChars ?_ (by decide)
  simp [String.data_append]

theorem toMarkdown_ne_empty (dp : String → Option Int) (jp : String → Option Json)
    (entries : List Entry) (h : entries ≠ []) :
    jsTrim (toMarkdown dp jp entries) ≠ "" := by
  have hlen : (mdSections dp jp entries).length = entries.length := by
    simp [mdSections, sortEntries]
  cases hms : mdSections dp jp entries with
  | nil =>
    rw [hms] at hlen
    exact absurd (List.length_eq_zero.mp hlen.symm) h
  | cons s rest =>
    have hs : s ∈ mdSections dp jp entries := by
      rw [hms]
      exact List.mem_cons_self _ _
    obtain ⟨e, -, hse⟩ := List.mem_map.mp hs
    have hash_s : '#' ∈ s.data := hse ▸ mdSection_has_hash dp jp e
    have hash_md : '#' ∈ (toMarkdown dp jp entries).data := by
      rw [toMarkdown, hms]
      cases rest with
      | nil => exact hash_s
      | cons r rs =>
        rw [joinSep]
        simp only [String.data_append, List.mem_append]
        exact Or.inl (Or.inl hash_s)
    exact jsTrim_ne_empty hash_md (by decide)

theorem convertBody_no_empty_render (dp : String → Option Int) (jp : String → Option Json)
    (f : FileInput) (b : Bool) :
    convertBody dp jp f b ≠ .error "Could not build markdown output from entries" := by
  intro h
  unfold convertBody at h
  split at h
  · next msg heq =>
    injection h with hmsg
    subst hmsg
    unfold locateText at heq
    split at heq
    · exact absurd heq (by simp)
    · split at heq
      · exact absurd heq (by simp)
      · injection heq with hmsg2
        exact absurd hmsg2 (by decide)
  · next jt heq =>
    split at h
    · injection h with hmsg
      exact absurd hmsg (by decide)
    · next journal hjp =>
      split at h
      · injection h with hmsg
        exact absurd hmsg (by decide)
      · next hne =>
        split at h
        · next hmd =>
          have hmap : (entriesOf journal).map entryOfJson ≠ [] := by
            intro hnil
            rw [List.map_eq_nil_iff] at hnil
            rw [hnil] at hne
            exact hne rfl
          exact toMarkdown_ne_empty dp jp _ hmap hmd
        · exact absurd h (by simp)

/-- C9: the `EmptyRenderedOutput` branch is unreachable for non-empty
entry lists: the rendered document of at least one entry is never
whitespace-only (each block starts with a `#` header), and `processFile`
never ends in that error. -/
theorem empty_rendered_unreachable (dp : String → Option Int) (jp : String → Option Json)
    (f : FileInput) (st : Session) (entries : List Entry) (h : entries ≠ []) :
    jsTrim (toMarkdown dp jp entries) ≠ ""
    ∧ (processFile dp jp f st).status
        ≠ .error "Could not build markdown output from entries" := by
  refine ⟨toMarkdown_ne_empty dp jp entries h, ?_⟩
  unfold processFile
  split
  · intro hst
    injection hst with hmsg
    exact absurd hmsg (by decide)
  · split
    · next msg heq =>
      intro hst
      injection hst with hmsg
      subst hmsg
      exact convertBody_no_empty_render dp jp f _ heq
    · next r heq =>
      intro hst
      cases hst

/-- Witness for `empty_rendered_unreachable`: one dateless, textless
entry still renders a non-whitespace document. -/
theorem empty_rendered_unreachable_witness :
    jsTrim (toMarkdown isoDateParse miniJsonParse [⟨none, none, none, none⟩]) ≠ ""
    ∧ (processFile isoDateParse miniJsonParse ⟨"notes.txt", "", [], fun _ => ""⟩
        ⟨"stale", "stale", "stale", true, true, .ready⟩).status
        ≠ .error "Could not build markdown output from entries" :=
  empty_rendered_unreachable isoDateParse miniJsonParse
    ⟨"notes.txt", "", [], fun _ => ""⟩ ⟨"stale", "stale", "stale", true, true, .ready⟩
    [⟨none, none, none, none⟩] (by decide)

/-- C8: every failed conversion resets the session output state: if
`processFile` ends in an error status, the stored markdown, the preview,
and the meta line are empty and both action buttons are disabled. -/
theorem error_resets_session (dp : String → Option Int) (jp : String → Option Json)
    (f : FileInput) (st : Session) (msg : String)
    (h : (processFile dp jp f st).status = .error msg) :
    (processFile dp jp f st).currentMarkdown = ""
    ∧ (processFile dp jp f st).previewValue = ""
    ∧ (processFile dp jp f st).metaText = ""
    ∧ (processFile dp jp f st).copyEnabled = false
    ∧ (processFile dp jp f st).downloadEnabled = false := by
  revert h
  unfold processFile
  split
  · intro h
    exact ⟨rfl, rfl, rfl, rfl, rfl⟩
  · split
    · intro h
      exact ⟨rfl, rfl, rfl, rfl, rfl⟩
    · intro h
      cases h

/-- Witness for `error_resets_session`: an unsupported file name wipes a
stale session. -/
theorem error_resets_session_witness :
    (processFile isoDateParse miniJsonParse ⟨"notes.txt", "", [], fun _ => ""⟩
      ⟨"stale", "stale", "stale", true, true, .ready⟩).currentMarkdown = ""
    ∧ (processFile isoDateParse miniJsonParse ⟨"notes.txt", "", [], fun _ => ""⟩
      ⟨"stale", "stale", "stale", true, true, .ready⟩).previewValue = ""
    ∧ (processFile isoDateParse miniJsonParse ⟨"notes.txt", "", [], fun _ => ""⟩
      ⟨"stale", "stale", "stale", true, true, .ready⟩).metaText = ""
    ∧ (processFile isoDateParse miniJsonParse ⟨"notes.txt", "", [], fun _ => ""⟩
      ⟨"stale", "stale", "stale", true, true, .ready⟩).copyEnabled = false
    ∧ (processFile isoDateParse miniJsonParse ⟨"notes.txt", "", [], fun _ => ""⟩
      ⟨"stale", "stale", "stale", true, true, .ready⟩).downloadEnabled = false :=
  error_resets_session isoDateParse miniJsonParse ⟨"notes.txt", "", [], fun _ => ""⟩
    ⟨"stale", "stale", "stale", true, true, .ready⟩
    "Unsupported file type. Use Day One .zip or Journal.json" (by decide)

/-- C10: a parsed document whose `entries` field is missing, null, or
not an array raises the `EmptyEntryList` condition (`"No entries found
in Journal.json"`), exactly like a document with zero entries, not a
malformed-document condition. -/
theorem missing_entries_is_empty_list (dp : String → Option Int) (jp : String → Option Json)
    (f : FileInput) (st : Session) (j : Json)
    (hname : jsEndsWith (lowerStr f.name) ".json" = true)
    (hparse : jp f.text = some j)
    (hents : ∀ l, j.getField "entries" ≠ some (Json.arr l)) :
    (processFile dp jp f st).status = .error "No entries found in Journal.json" := by
  have hempty : entriesOf j = [] := by
    unfold entriesOf
    cases hgf : j.getField "entries" with
    | none => rfl
    | some v =>
      cases v with
      | arr l => exact absurd hgf (hents l)
      | null => rfl
      | bool b => rfl
      | num n => rfl
      | str s => rfl
      | obj fields => rfl
  have hbody : convertBody dp jp f true = .error "No entries found in Journal.json" := by
    unfold convertBody locateText
    simp [hparse, hempty]
  unfold processFile
  simp [hname, hbody]

/-- Witness for `missing_entries_is_empty_list`: a `.json` file whose
document is `\x7b"entries":null\x7d`. -/
theorem missing_entries_is_empty_list_witness :
    (processFile isoDateParse miniJsonParse
      ⟨"Journal.json", "\x7b\"entries\":null\x7d", [], fun _ => ""⟩
      ⟨"stale", "stale", "stale", true, true, .ready⟩).status
      = .error "No entries found in Journal.json" :=
  missing_entries_is_empty_list isoDateParse miniJsonParse
    ⟨"Journal.json", "\x7b\"entries\":null\x7d", [], fun _ => ""⟩
    ⟨"stale", "stale", "stale", true, true, .ready⟩
    (Json.obj [("entries", Json.null)])
    (by decide) (by rfl)
    (fun l h => by
      have h2 : Json.null = Json.arr l := by
        have h3 := h
        rw [show (Json.obj [("entries", Json.null)]).getField "entries"
            = some Json.null from rfl] at h3
        exact Option.some.inj h3
      exact Json.noConfusion h2)

end DayOne
